import Mathlib

/-!
Verification development for the Krisp-to-Notion webhook receiver (`app.py`).

The embedded core consists of the three pure functions of the pipeline:

* `parse_tasks_from_payload` (app.py lines 105-183): text extraction from a
  JSON-like payload followed by two regex grammars (markdown checklist and
  `Task:/Owner:` labels);
* `clean_task_text` (app.py lines 186-208): owner-prefix stripping and
  capitalization;
* `post_to_zapier` (app.py lines 211-231): the forwarder, modelled over an
  explicit network oracle.

Strings are modelled as `List Char`; the Python regexes are embedded as
deterministic matchers derived from the backtracking semantics of the two
concrete patterns (each derivation is documented at the matcher).  Character
classes (`\s`, `\w`, `str.strip`, `str.lower/upper`, `re.IGNORECASE`) are
modelled over ASCII, which covers all inputs appearing in the theorems below.
-/

namespace KrispNotion

/-- Python's `\s` character class (and the character set stripped by
`str.strip()`), restricted to ASCII: space, tab, newline, carriage return,
vertical tab, form feed. -/
def pySpace (c : Char) : Bool :=
  c = ' ' || c = '\t' || c = '\n' || c = '\r' || c = '\x0b' || c = '\x0c'

/-- Python's `\w` character class restricted to ASCII: letters, digits and
underscore. -/
def pyWord (c : Char) : Bool :=
  c.isAlphanum || c = '_'

/-- Python `str.strip()` with no arguments: remove leading and trailing
whitespace. -/
def pyStrip (l : List Char) : List Char :=
  ((l.dropWhile pySpace).reverse.dropWhile pySpace).reverse

/-- The capitalization step of `clean_task_text` (app.py line 206):
`cleaned[0].upper() + cleaned[1:] if len(cleaned) > 1 else cleaned.upper()`.
For a one-character string, `str.upper()` upper-cases that single character,
so both branches upper-case the head and keep the tail. -/
def capitalizeFirst : List Char → List Char
  | [] => []
  | [c] => [c.toUpper]
  | c :: rest => c.toUpper :: rest

/-- Case-insensitive literal match of `pat` as a prefix of `cs`
(`re.IGNORECASE` over ASCII compares lower-cased characters); returns the
rest of `cs` on success. -/
def ciStrip : List Char → List Char → Option (List Char)
  | [], cs => some cs
  | _ :: _, [] => none
  | p :: ps, c :: cs => if p.toLower == c.toLower then ciStrip ps cs else none

/-- The regex piece `\s+` followed by a non-whitespace literal: it must match
at least one whitespace character and, being greedy with no whitespace
alternative afterwards, always consumes the maximal whitespace run.  Returns
the rest after the run. -/
def wsPlus : List Char → Option (List Char)
  | [] => none
  | c :: cs => if pySpace c then some (cs.dropWhile pySpace) else none

/-- The regex piece `(\w+)` followed by a non-word literal: greedy, so it
captures the maximal nonempty word-character run.  Returns (capture, rest). -/
def wordPlus (cs : List Char) : Option (List Char × List Char) :=
  let w := cs.takeWhile pyWord
  if w = [] then none else some (w, cs.dropWhile pyWord)

/-- An exact literal character (`-`, `[`, `]` are unaffected by
`re.IGNORECASE`). -/
def litChar (c : Char) : List Char → Option (List Char)
  | [] => none
  | x :: xs => if x = c then some xs else none

/-!
### The task cleaner (`clean_task_text`, app.py lines 186-208)

The three anchored patterns (app.py lines 192-196), with `re.IGNORECASE` and
`owner` inserted via `re.escape` (so matched literally):

* `^{owner}\s+to\s+`
* `^{owner}:\s*`
* `^{owner}\s+`

Each is applied by `re.sub(pattern, '', cleaned, flags=re.IGNORECASE)`.  Since
each pattern is anchored at `^` without `re.MULTILINE`, `re.sub` can replace
at most one occurrence, at the start of the string.  In each pattern every
`\s+` is followed by a non-whitespace literal or ends the pattern, so greedy
matching deterministically consumes maximal whitespace runs and backtracking
can never succeed where the maximal-run parse fails.
-/

/-- Matcher for `^{owner}\s+to\s+`: returns the rest after the match, or
`none` when the pattern does not match at the start. -/
def matchPrefix1 (owner cs : List Char) : Option (List Char) :=
  (ciStrip owner cs).bind fun r1 =>
  (wsPlus r1).bind fun r2 =>
  (ciStrip ['t', 'o'] r2).bind fun r3 =>
  wsPlus r3

/-- Matcher for `^{owner}:\s*`: returns the rest after the match (the `\s*`
consumes the maximal, possibly empty, whitespace run). -/
def matchPrefix2 (owner cs : List Char) : Option (List Char) :=
  (ciStrip owner cs).bind fun r1 =>
  (ciStrip [':'] r1).map fun r2 =>
  r2.dropWhile pySpace

/-- Matcher for `^{owner}\s+`. -/
def matchPrefix3 (owner cs : List Char) : Option (List Char) :=
  (ciStrip owner cs).bind fun r1 =>
  wsPlus r1

/-- One `re.sub(pattern, '', cleaned, flags=re.IGNORECASE)` step: replace the
single anchored occurrence if the pattern matches, else leave the string
unchanged. -/
def applySub (m : List Char → Option (List Char)) (cs : List Char) : List Char :=
  match m cs with
  | some r => r
  | none => cs

/-- `clean_task_text` (app.py lines 186-208): apply the three substitutions in
order, each to the result of the previous one (the Python `for pattern in
patterns` loop, lines 199-200), then strip surrounding whitespace (line 202)
and capitalize the first letter when nonempty (lines 205-206). -/
def clean_task_text (task_text owner : String) : String :=
  let o := owner.data
  let cleaned :=
    [matchPrefix1 o, matchPrefix2 o, matchPrefix3 o].foldl
      (fun acc m => applySub m acc) task_text.data
  let stripped := pyStrip cleaned
  if stripped = [] then String.mk stripped else String.mk (capitalizeFirst stripped)

/-- Modelled from the spec claim wording for C3 ("only the first matching form
is removed — after one form has stripped a prefix, the remaining forms do not
strip anything further"): try the three forms in order and remove only the
first one that matches, then strip and capitalize as the code does. -/
def clean_task_text_spec_first_only (task_text owner : String) : String :=
  let o := owner.data
  let cleaned :=
    match matchPrefix1 o task_text.data with
    | some r => r
    | none =>
      match matchPrefix2 o task_text.data with
      | some r => r
      | none =>
        match matchPrefix3 o task_text.data with
        | some r => r
        | none => task_text.data
  let stripped := pyStrip cleaned
  if stripped = [] then String.mk stripped else String.mk (capitalizeFirst stripped)

/-- The owner prefix has already been removed from `t`: the substitution pass
of `clean_task_text` (the three `re.sub` steps) leaves `t` unchanged. -/
def ownerPrefixRemoved (t o : String) : Prop :=
  [matchPrefix1 o.data, matchPrefix2 o.data, matchPrefix3 o.data].foldl
    (fun acc m => applySub m acc) t.data = t.data

instance (t o : String) : Decidable (ownerPrefixRemoved t o) := by
  unfold ownerPrefixRemoved
  infer_instance

/-!
### The task parser (`parse_tasks_from_payload`, app.py lines 148-183)

Markdown pattern (line 151), flags `re.MULTILINE | re.DOTALL | re.IGNORECASE`:

`-\s*\[\s*\]\s+(\w+)\s+to\s+(.+?)(?=\n\s*-\s*\[|$)`

Deterministic reading of a match attempt at a given position:

* `-`, then `\s*` `[`, `\s*` `]` (each `\s*` is a maximal whitespace run
  followed by the forced literal);
* `\s+(\w+)\s+to` as above (maximal runs; shrinking any run would require a
  whitespace position to match a non-whitespace literal, so no backtracking
  alternative exists);
* `\s+(.+?)(?=\n\s*-\s*\[|$)`: the final `\s+` takes the maximal whitespace
  run; the lazy group then grows from one character.  Under `re.MULTILINE`
  the `$` in the lookahead matches at the end of the string and immediately
  before every `\n`, and the first lookahead alternative also requires `\n`
  next, so the lookahead holds exactly at end-of-input or before a newline:
  the capture is the run of characters up to (excluding) the first newline
  after its start.  When the maximal whitespace run reaches the end of the
  input the lazy group has nothing to take, and the engine backtracks the
  `\s+` by exactly one character (further shrinking would put a whitespace
  character under `.+?`'s lookahead only after success, so the first retry
  wins): the capture is then the last whitespace character alone, which
  requires the run to have length at least 2.
-/

/-- The `\s+(.+?)(?=\n\s*-\s*\[|$)` tail of the markdown pattern (see the
derivation above).  Returns (raw capture, rest after the match). -/
def lazyDescStep (cs : List Char) : Option (List Char × List Char) :=
  let run := cs.takeWhile pySpace
  if run = [] then none
  else
    match cs.dropWhile pySpace with
    | [] => if 2 ≤ run.length then some ([run.getLastD ' '], []) else none
    | c :: rest =>
      some ((c :: rest).takeWhile (fun x => x ≠ '\n'),
            (c :: rest).dropWhile (fun x => x ≠ '\n'))

/-- A match attempt of the markdown pattern at the start of `cs`.  Returns
((owner capture, description capture), rest of the input after the match). -/
def mdMatchAt (cs : List Char) : Option ((List Char × List Char) × List Char) :=
  (litChar '-' cs).bind fun a =>
  (litChar '[' (a.dropWhile pySpace)).bind fun b =>
  (litChar ']' (b.dropWhile pySpace)).bind fun d =>
  (wsPlus d).bind fun e =>
  (wordPlus e).bind fun ow =>
  (wsPlus ow.2).bind fun g =>
  (ciStrip ['t', 'o'] g).bind fun h =>
  (lazyDescStep h).map fun dr => ((ow.1, dr.1), dr.2)

/-- `re.finditer` over the markdown pattern: scan left to right, attempting a
match at every position, and continue after the end of each match (matches
are non-overlapping; every match consumes at least one character).  `fuel`
bounds the number of scanning steps; since every step discards at least one
character, `cs.length + 1` is always sufficient. -/
def mdScan : Nat → List Char → List (List Char × List Char)
  | 0, _ => []
  | _ + 1, [] => []
  | fuel + 1, c :: cs =>
    match mdMatchAt (c :: cs) with
    | some (p, rest) => p :: mdScan fuel rest
    | none => mdScan fuel cs

structure TaskEntry where
  task : String
  owner : String
deriving DecidableEq

/-- The markdown branch of the parser (app.py lines 154-163): for each match,
`owner = group(1).strip()` and
`task = group(2).strip().replace('\n', ' ').strip()`. -/
def mdEntries (cs : List Char) : List TaskEntry :=
  (mdScan (cs.length + 1) cs).map fun p =>
    { owner := String.mk (pyStrip p.1),
      task := String.mk (pyStrip ((pyStrip p.2).map fun c => if c = '\n' then ' ' else c)) }

/-!
Label pattern (line 167), flags `re.DOTALL | re.IGNORECASE`:

`Task:\s*(.+?)\s+Owner:\s*(\w+)`

Deterministic reading of a match attempt at a given position: after the
literal `Task:`, let `W` be the length of the following maximal whitespace
run.  The greedy `\s*` first takes all `W` characters and the lazy group
grows from one character; at each candidate end position the engine needs
`\s+Owner:\s*(\w+)`, i.e. a whitespace character starting a maximal run
followed immediately by `Owner:` and then a maximal (possibly empty)
whitespace run followed by at least one word character (shrinking either run
would place a non-whitespace literal on a whitespace character, and a failing
`(\w+)` sends the engine back into the lazy group).  If no candidate end
position at offset `≥ W + 1` works, the engine backtracks the `\s*`: offsets
already tried fail again, and the first new candidate succeeds iff `W ≥ 2`
and the tail condition holds one character before the end of the whitespace
run — the capture is then the single whitespace character at offset `W - 2`.
-/

/-- The `\s+Owner:\s*(\w+)` tail condition of the label pattern at a given
position.  Returns (owner capture, rest after the match). -/
def ownerTail (v : List Char) : Option (List Char × List Char) :=
  (wsPlus v).bind fun v1 =>
  (ciStrip ['o', 'w', 'n', 'e', 'r', ':'] v1).bind fun v2 =>
  wordPlus (v2.dropWhile pySpace)

/-- Lazy search for the earliest end position of the label pattern's group 1:
`acc` holds the (reversed) capture so far, which always has at least one
character.  Returns (group 1, (owner capture, rest)). -/
def labelSearch : List Char → List Char → Option (List Char × (List Char × List Char))
  | acc, [] =>
    match ownerTail [] with
    | some r => some (acc.reverse, r)
    | none => none
  | acc, c :: vs =>
    match ownerTail (c :: vs) with
    | some r => some (acc.reverse, r)
    | none => labelSearch (c :: acc) vs

/-- A match attempt of the label pattern at the start of `cs` (see the
derivation above).  Returns ((group 1, owner capture), rest). -/
def labelMatchAt (cs : List Char) : Option ((List Char × List Char) × List Char) :=
  (ciStrip ['t', 'a', 's', 'k', ':'] cs).bind fun u =>
  let w := (u.takeWhile pySpace).length
  match u.dropWhile pySpace with
  | c :: u3 =>
    (match labelSearch [c] u3 with
     | some r => some ((r.1, r.2.1), r.2.2)
     | none =>
       if 2 ≤ w then
         match ownerTail (u.drop (w - 1)) with
         | some r => some (([u.getD (w - 2) ' '], r.1), r.2)
         | none => none
       else none)
  | [] =>
    if 2 ≤ w then
      match ownerTail (u.drop (w - 1)) with
      | some r => some (([u.getD (w - 2) ' '], r.1), r.2)
      | none => none
    else none

/-- `re.finditer` over the label pattern; `fuel` as in `mdScan`. -/
def labelScan : Nat → List Char → List (List Char × List Char)
  | 0, _ => []
  | _ + 1, [] => []
  | fuel + 1, c :: cs =>
    match labelMatchAt (c :: cs) with
    | some (p, rest) => p :: labelScan fuel rest
    | none => labelScan fuel cs

/-- The label branch of the parser (app.py lines 166-178): for each match,
`task = group(1).strip()` and `owner = group(2).strip()`. -/
def labelEntries (cs : List Char) : List TaskEntry :=
  (labelScan (cs.length + 1) cs).map fun p =>
    { task := String.mk (pyStrip p.1), owner := String.mk (pyStrip p.2) }

/-- The text-level task parser (app.py lines 148-183): run the markdown
grammar; only when it produced zero matches (`match_count == 0`, line 166)
run the label grammar. -/
def parseTasksFromText (text : String) : List TaskEntry :=
  let md := mdEntries text.data
  if md.isEmpty then labelEntries text.data else md

/-!
### The checklist grammar as the spec claim C7 words it

Modelled from the spec: "the description runs until the next checklist marker
or end of text, case-insensitive, spanning newlines, and embedded newlines
within one captured description are collapsed to single spaces" — a reading of
the pattern without the effect of `re.MULTILINE` on the `$` in the lookahead.
-/

/-- Modelled from the spec: does a next-checklist-marker (`\n\s*-\s*\[`)
start here? -/
def specMarkerStarts (cs : List Char) : Bool :=
  match cs with
  | '\n' :: r =>
    (match r.dropWhile pySpace with
     | '-' :: r2 =>
       (match r2.dropWhile pySpace with
        | '[' :: _ => true
        | _ => false)
     | _ => false)
  | _ => false

/-- Modelled from the spec: split off the description running until the next
checklist marker or the end of the text. -/
def specDescSplit : List Char → (List Char × List Char)
  | [] => ([], [])
  | c :: cs =>
    if specMarkerStarts (c :: cs) then ([], c :: cs)
    else
      let p := specDescSplit cs
      (c :: p.1, p.2)

/-- Collapse every run of newlines to a single space (`prevNl` records
whether the previous character was a newline). -/
def collapseGo : Bool → List Char → List Char
  | _, [] => []
  | prevNl, c :: cs =>
    if c = '\n' then
      (if prevNl then collapseGo true cs else ' ' :: collapseGo true cs)
    else c :: collapseGo false cs

/-- Modelled from the spec: collapse embedded newline runs to single
spaces. -/
def collapseNewlineRuns (cs : List Char) : List Char :=
  collapseGo false cs

/-- Modelled from the spec: the description part of a checklist match, running
until the next checklist marker or end of text (at least one character). -/
def lazyDescStepSpec (cs : List Char) : Option (List Char × List Char) :=
  let run := cs.takeWhile pySpace
  if run = [] then none
  else
    match cs.dropWhile pySpace with
    | [] => none
    | c :: rest =>
      let p := specDescSplit rest
      some (c :: p.1, p.2)

/-- Modelled from the spec: a checklist-grammar match attempt under the C7
reading (description until the next marker or end of text). -/
def mdMatchAtSpec (cs : List Char) : Option ((List Char × List Char) × List Char) :=
  (litChar '-' cs).bind fun a =>
  (litChar '[' (a.dropWhile pySpace)).bind fun b =>
  (litChar ']' (b.dropWhile pySpace)).bind fun d =>
  (wsPlus d).bind fun e =>
  (wordPlus e).bind fun ow =>
  (wsPlus ow.2).bind fun g =>
  (ciStrip ['t', 'o'] g).bind fun h =>
  (lazyDescStepSpec h).map fun dr => ((ow.1, dr.1), dr.2)

/-- Modelled from the spec: scanning under the C7 reading. -/
def mdScanSpec : Nat → List Char → List (List Char × List Char)
  | 0, _ => []
  | _ + 1, [] => []
  | fuel + 1, c :: cs =>
    match mdMatchAtSpec (c :: cs) with
    | some (p, rest) => p :: mdScanSpec fuel rest
    | none => mdScanSpec fuel cs

/-- Modelled from the spec: the checklist TaskEntry list under the C7 reading,
with embedded newline runs of a captured description collapsed to single
spaces. -/
def mdEntriesSpec (cs : List Char) : List TaskEntry :=
  (mdScanSpec (cs.length + 1) cs).map fun p =>
    { owner := String.mk (pyStrip p.1),
      task := String.mk (pyStrip (collapseNewlineRuns (pyStrip p.2))) }

/-!
### The payload model and text extraction (app.py lines 105-146)

JSON-compatible Python values.  Floating point numbers are outside this model
(no JSON-float payloads appear in any theorem below); everything else follows
`json.loads` and Python value semantics.
-/

inductive PyVal where
  | str (s : String)
  | int (n : Int)
  | bool (b : Bool)
  | none
  | list (items : List PyVal)
  | dict (entries : List (String × PyVal))

/-- Escaping of one character inside Python `repr` of a string with quote
character `q` (the escapes relevant to this development; `\xHH` escapes of
other control characters are outside the model). -/
def pyReprEsc (q : Char) (c : Char) : List Char :=
  if c = '\\' then ['\\', '\\']
  else if c = '\n' then ['\\', 'n']
  else if c = '\r' then ['\\', 'r']
  else if c = '\t' then ['\\', 't']
  else if c = q then ['\\', q]
  else [c]

/-- Python `repr` of a string: single quotes, switching to double quotes when
the string contains a single quote but no double quote. -/
def pyReprStr (s : String) : String :=
  let q := if s.data.contains '\'' && ! s.data.contains '"' then '"' else '\''
  String.mk (q :: (s.data.map (pyReprEsc q)).flatten ++ [q])

mutual

/-- Python `repr` of a value. -/
def pyRepr : PyVal → String
  | .str s => pyReprStr s
  | .int n => toString n
  | .bool b => if b then "True" else "False"
  | .none => "None"
  | .list xs => "[" ++ String.intercalate ", " (pyReprItems xs) ++ "]"
  | .dict es => "\x7b" ++ String.intercalate ", " (pyReprMembers es) ++ "\x7d"

/-- The item reprs of a Python list. -/
def pyReprItems : List PyVal → List String
  | [] => []
  | v :: vs => pyRepr v :: pyReprItems vs

/-- The `key: value` reprs of the entries of a Python dict. -/
def pyReprMembers : List (String × PyVal) → List String
  | [] => []
  | e :: es => (pyReprStr e.1 ++ ": " ++ pyRepr e.2) :: pyReprMembers es

end

/-- Python `str()` of a value: the string itself for strings, `repr`
otherwise (as in `str(payload)` on app.py lines 129, 141, 145). -/
def pyStr : PyVal → String
  | .str s => s
  | .int n => pyRepr (.int n)
  | .bool b => pyRepr (.bool b)
  | .none => pyRepr .none
  | .list xs => pyRepr (.list xs)
  | .dict es => pyRepr (.dict es)

/-- Python truthiness of a value (what `or` and `if not x` test). -/
def pyTruthy : PyVal → Bool
  | .str s => s != ""
  | .int n => n != 0
  | .bool b => b
  | .none => false
  | .list xs => ! xs.isEmpty
  | .dict es => ! es.isEmpty

/-- Python `payload.get(k)`: the value under the first (unique) matching key,
or `None` when the key is absent. -/
def pyGet (es : List (String × PyVal)) (k : String) : PyVal :=
  match es.find? fun e => e.1 == k with
  | some e => e.2
  | Option.none => .none

/-- Python `a or b`: `a` when truthy, else `b`. -/
def pyOr (a b : PyVal) : PyVal :=
  if pyTruthy a then a else b

/-!
### A model of `json.loads` (used by app.py lines 115-120)

Recursive-descent parser for JSON objects, arrays, strings (with the standard
one-character escapes; `\uXXXX` is outside the model), integers, `true`,
`false` and `null`, with JSON whitespace between tokens.  Numbers with a
fractional or exponent part parse to Python floats and are outside this
model (the parser rejects them).  Python `dict` literals keep the first
occurrence position and the last value of a duplicated key, which
`dictFromMembers` reproduces.
-/

def jsonWsChar (c : Char) : Bool :=
  c = ' ' || c = '\t' || c = '\n' || c = '\r'

def jsonEscape : Char → Option Char
  | '"' => some '"'
  | '\\' => some '\\'
  | '/' => some '/'
  | 'b' => some '\x08'
  | 'f' => some '\x0c'
  | 'n' => some '\n'
  | 'r' => some '\r'
  | 't' => some '\t'
  | _ => Option.none

/-- The body of a JSON string after the opening quote: (content, rest after
the closing quote).  Unescaped control characters are rejected (strict mode
of `json.loads`). -/
def jsonStringRest : List Char → Option (List Char × List Char)
  | [] => Option.none
  | '"' :: rest => some ([], rest)
  | '\\' :: rest =>
    (match rest with
     | [] => Option.none
     | e :: rest2 =>
       (jsonEscape e).bind fun c =>
       (jsonStringRest rest2).map fun p => (c :: p.1, p.2))
  | c :: rest =>
    if c.toNat < 32 then Option.none
    else (jsonStringRest rest).map fun p => (c :: p.1, p.2)

def jsonDigits (ds : List Char) : Nat :=
  ds.foldl (fun a c => a * 10 + (c.toNat - 48)) 0

/-- A JSON number: optional minus, digits without a leading zero; a following
`.`, `e` or `E` means a float, which is outside the model. -/
def jsonNumber (cs : List Char) : Option (PyVal × List Char) :=
  let neg := match cs with | '-' :: _ => true | _ => false
  let cs1 := if neg then cs.tail else cs
  let ds := cs1.takeWhile Char.isDigit
  let rest := cs1.dropWhile Char.isDigit
  if ds = [] then Option.none
  else if 2 ≤ ds.length ∧ ds.headD '0' = '0' then Option.none
  else
    match rest with
    | '.' :: _ => Option.none
    | 'e' :: _ => Option.none
    | 'E' :: _ => Option.none
    | _ => some (.int (if neg then -(jsonDigits ds : Int) else (jsonDigits ds : Int)), rest)

/-- Python dict construction from a member list: a duplicated key keeps its
first position and its last value. -/
def dictInsert (es : List (String × PyVal)) (k : String) (v : PyVal) :
    List (String × PyVal) :=
  if (es.find? fun e => e.1 == k).isSome then
    es.map fun e => if e.1 == k then (k, v) else e
  else es ++ [(k, v)]

def dictFromMembers (l : List (String × PyVal)) : List (String × PyVal) :=
  l.foldl (fun acc kv => dictInsert acc kv.1 kv.2) []

inductive JsonMode where
  | value
  | members
  | items

/-- The recursive-descent parser: a JSON value, the members of a nonempty
object (after `{`), or the items of a nonempty array (after `[`).  `fuel`
bounds the recursion depth; each `value`/`members` pair of steps consumes at
least one input character, so `length + 1` always suffices. -/
def jsonP : Nat → JsonMode → List Char → Option (PyVal × List Char)
  | 0, _, _ => Option.none
  | fuel + 1, .value, cs =>
    (match cs.dropWhile jsonWsChar with
     | '{' :: r =>
       (match r.dropWhile jsonWsChar with
        | '}' :: r2 => some (.dict [], r2)
        | _ =>
          (jsonP fuel .members r).bind fun p =>
          match p.1 with
          | .dict es => some (.dict (dictFromMembers es), p.2)
          | _ => Option.none)
     | '[' :: r =>
       (match r.dropWhile jsonWsChar with
        | ']' :: r2 => some (.list [], r2)
        | _ => jsonP fuel .items r)
     | '"' :: r => (jsonStringRest r).map fun p => (.str (String.mk p.1), p.2)
     | 't' :: 'r' :: 'u' :: 'e' :: r => some (.bool true, r)
     | 'f' :: 'a' :: 'l' :: 's' :: 'e' :: r => some (.bool false, r)
     | 'n' :: 'u' :: 'l' :: 'l' :: r => some (.none, r)
     | other => jsonNumber other)
  | fuel + 1, .members, cs =>
    (match cs.dropWhile jsonWsChar with
     | '"' :: r =>
       (jsonStringRest r).bind fun kp =>
       (match kp.2.dropWhile jsonWsChar with
        | ':' :: r2 =>
          (jsonP fuel .value r2).bind fun vp =>
          (match vp.2.dropWhile jsonWsChar with
           | ',' :: r4 =>
             (jsonP fuel .members r4).bind fun tp =>
             (match tp.1 with
              | .dict es => some (.dict ((String.mk kp.1, vp.1) :: es), tp.2)
              | _ => Option.none)
           | '}' :: r4 => some (.dict [(String.mk kp.1, vp.1)], r4)
           | _ => Option.none)
        | _ => Option.none)
     | _ => Option.none)
  | fuel + 1, .items, cs =>
    (jsonP fuel .value cs).bind fun vp =>
    (match vp.2.dropWhile jsonWsChar with
     | ',' :: r2 =>
       (jsonP fuel .items r2).bind fun tp =>
       (match tp.1 with
        | .list xs => some (.list (vp.1 :: xs), tp.2)
        | _ => Option.none)
     | ']' :: r2 => some (.list [vp.1], r2)
     | _ => Option.none)

/-- `json.loads`: parse one JSON value with only whitespace around it. -/
def jsonParse (s : String) : Option PyVal :=
  match jsonP (s.data.length + 1) .value s.data with
  | some p => if p.2.dropWhile jsonWsChar = [] then some p.1 else Option.none
  | Option.none => Option.none

/-- The candidate keys probed on a dict payload, in order
(app.py lines 134-141). -/
def candidateKeys : List String :=
  ["krisp_blob", "text", "content", "body", "message", "data"]

/-- The dict branch of text extraction (app.py lines 132-142): the Python
`or` chain `payload.get('krisp_blob') or ... or payload.get('data') or
str(payload)`. -/
def extractFromDict (es : List (String × PyVal)) : PyVal :=
  pyOr (pyGet es "krisp_blob") (pyOr (pyGet es "text") (pyOr (pyGet es "content")
    (pyOr (pyGet es "body") (pyOr (pyGet es "message") (pyOr (pyGet es "data")
      (.str (pyStr (.dict es))))))))

/-- Modelled from the spec claim wording for C4 ("uses the value of the first
key that is present in the object; only when none of the candidate keys is
present does it fall back to the object's full string representation"). -/
def extract_from_dict_spec (es : List (String × PyVal)) : PyVal :=
  match candidateKeys.find? (fun k => (es.find? fun e => e.1 == k).isSome) with
  | some k => pyGet es k
  | Option.none => .str (pyStr (.dict es))

/-- Text extraction from a non-string payload (app.py lines 122-146): the
nonempty-list branch uses `krisp_blob` of the first element when that key is
present, else joins `str(item)` over the items with newlines; the dict branch
is the `or` chain; everything else (including the empty list) is `str`-ed. -/
def extractNonString : PyVal → PyVal
  | .list (first :: rest) =>
    (match first with
     | .dict es =>
       if (es.find? fun e => e.1 == "krisp_blob").isSome then pyGet es "krisp_blob"
       else .str (String.intercalate "\n" ((first :: rest).map pyStr))
     | _ => .str (String.intercalate "\n" ((first :: rest).map pyStr)))
  | .dict es => extractFromDict es
  | v => .str (pyStr v)

/-- Text extraction (app.py lines 114-146): a string payload is first passed
through `json.loads`; on success the parsed value is dispatched as above, on
failure the string itself is the text (the final `str(payload)` of a string
is the string). -/
def extract_text_content : PyVal → PyVal
  | .str s =>
    (match jsonParse s with
     | some v => extractNonString v
     | Option.none => .str s)
  | v => extractNonString v

/-- The whole of `parse_tasks_from_payload` (app.py lines 105-183): extract
the text, then parse it.  When the extracted `text_content` is not a string,
`re.finditer` on it raises `TypeError` (app.py line 152), which escapes the
function. -/
def parse_tasks_from_payload (payload : PyVal) : Except String (List TaskEntry) :=
  match extract_text_content payload with
  | .str s => .ok (parseTasksFromText s)
  | _ => .error "TypeError: expected string or bytes-like object"

/-!
### The forwarder (`post_to_zapier`, app.py lines 211-231)

The network is an explicit oracle: posting to a URL either raises a
`requests.exceptions.RequestException` with some message, or produces a
response with a status code and a body.  `response.raise_for_status()`
raises exactly for status codes in `[400, 600)`.
-/

inductive HttpResult where
  | exn (msg : String)
  | response (status : Nat) (body : String)

def configErrorMsg : String :=
  "ZAPIER_WEBHOOK_URL not found in environment variables"

/-- `requests` raises from `raise_for_status()` exactly when
`400 <= status_code < 600`. -/
def raiseForStatusRaises (status : Nat) : Bool :=
  decide (400 ≤ status ∧ status < 600)

/-- The `str(e)` of the `HTTPError` raised by `raise_for_status()` (the exact
text follows the formatting of `requests`; only its role as an error
description matters here). -/
def httpErrorDetail (status : Nat) (url : String) : String :=
  (if status < 500 then toString status ++ " Client Error for url: "
   else toString status ++ " Server Error for url: ") ++ url

/-- The 2xx status predicate of the spec's delivery contract. -/
def is2xx (status : Nat) : Bool :=
  decide (200 ≤ status ∧ status < 300)

/-- `post_to_zapier` (app.py lines 211-231): `envZapierUrl` is
`os.environ.get("ZAPIER_WEBHOOK_URL")` (absent or set to the empty string
both fail the `if not zapier_url` truthiness test); `net` is the network
oracle, consulted only after the configuration check. -/
def post_to_zapier (envZapierUrl : Option String) (net : String → HttpResult) :
    Bool × String :=
  match envZapierUrl with
  | Option.none => (false, configErrorMsg)
  | some url =>
    if url = "" then (false, configErrorMsg)
    else
      match net url with
      | .exn msg => (false, msg)
      | .response st body =>
        if raiseForStatusRaises st then (false, httpErrorDetail st url)
        else (true, body)

/-!
### Helper lemmas: ASCII case conversion
-/

theorem char_toNat_ofNat (n : Nat) (h : n < 55296) : (Char.ofNat n).toNat = n := by
  have hv : n.isValidChar := Or.inl h
  rw [Char.ofNat, dif_pos hv]
  rfl

theorem char_toUpper_toUpper (c : Char) : c.toUpper.toUpper = c.toUpper := by
  unfold Char.toUpper
  by_cases h : c.toNat ≥ 97 ∧ c.toNat ≤ 122
  · rw [if_pos h]
    have h1 : (Char.ofNat (c.toNat - 32)).toNat = c.toNat - 32 :=
      char_toNat_ofNat _ (by omega)
    rw [if_neg (by omega)]
  · rw [if_neg h, if_neg h]

theorem char_toLower_toUpper (c : Char) : c.toUpper.toLower = c.toLower := by
  unfold Char.toUpper Char.toLower
  by_cases h : c.toNat ≥ 97 ∧ c.toNat ≤ 122
  · rw [if_pos h]
    have h1 : (Char.ofNat (c.toNat - 32)).toNat = c.toNat - 32 :=
      char_toNat_ofNat _ (by omega)
    rw [if_pos (by omega), if_neg (by omega)]
    have h2 : (Char.ofNat (c.toNat - 32)).toNat + 32 = c.toNat := by omega
    rw [h2, Char.ofNat_toNat]
  · rw [if_neg h]

theorem pySpace_false_of_range (x : Char) (h1 : 65 ≤ x.toNat) (h2 : x.toNat ≤ 122) :
    pySpace x = false := by
  have hs : (' ' : Char).toNat = 32 := rfl
  have ht : ('\t' : Char).toNat = 9 := rfl
  have hn : ('\n' : Char).toNat = 10 := rfl
  have hr : ('\r' : Char).toNat = 13 := rfl
  have hv : ('\x0b' : Char).toNat = 11 := rfl
  have hf : ('\x0c' : Char).toNat = 12 := rfl
  unfold pySpace
  simp only [Bool.or_eq_false_iff, decide_eq_false_iff_not]
  refine ⟨⟨⟨⟨⟨?_, ?_⟩, ?_⟩, ?_⟩, ?_⟩, ?_⟩ <;> (intro he; subst he; omega)

theorem pySpace_toUpper (c : Char) : pySpace c.toUpper = pySpace c := by
  unfold Char.toUpper
  by_cases h : c.toNat ≥ 97 ∧ c.toNat ≤ 122
  · rw [if_pos h]
    have h1 : (Char.ofNat (c.toNat - 32)).toNat = c.toNat - 32 :=
      char_toNat_ofNat _ (by omega)
    rw [pySpace_false_of_range _ (by omega) (by omega),
        pySpace_false_of_range c (by omega) (by omega)]
  · rw [if_neg h]

theorem toUpper_eq_self_of_pySpace (c : Char) (h : pySpace c = true) : c.toUpper = c := by
  unfold Char.toUpper
  by_cases hr : c.toNat ≥ 97 ∧ c.toNat ≤ 122
  · rw [pySpace_false_of_range c (by omega) (by omega)] at h
    exact absurd h (by simp)
  · rw [if_neg hr]

theorem toLower_eq_self_of_pySpace (c : Char) (h : pySpace c = true) : c.toLower = c := by
  unfold Char.toLower
  by_cases hr : c.toNat ≥ 65 ∧ c.toNat ≤ 90
  · rw [pySpace_false_of_range c (by omega) (by omega)] at h
    exact absurd h (by simp)
  · rw [if_neg hr]

/-!
### Helper lemmas: `dropWhile` and `pyStrip`
-/

theorem dropWhile_head_false (p : Char → Bool) :
    ∀ (l : List Char) (x : Char) (xs : List Char), l.dropWhile p = x :: xs → p x = false
  | [], x, xs, h => by simp [List.dropWhile] at h
  | c :: l, x, xs, h => by
    rw [List.dropWhile_cons] at h
    by_cases hc : p c
    · rw [if_pos hc] at h
      exact dropWhile_head_false p l x xs h
    · rw [if_neg hc] at h
      cases h
      simpa using hc

theorem dropWhile_cons_eq_self (p : Char → Bool) (x : Char) (xs : List Char) :
    (x :: xs).dropWhile p = x :: xs ↔ p x = false := by
  constructor
  · intro h
    by_cases hc : p x
    · rw [List.dropWhile_cons, if_pos hc] at h
      have hle := (List.dropWhile_sublist (l := xs) p).length_le
      rw [h] at hle
      simp only [List.length_cons] at hle
      omega
    · simpa using hc
  · intro h
    rw [List.dropWhile_cons, if_neg (by simp [h])]

theorem pyStrip_rear (l : List Char) (x : Char) (xs : List Char)
    (h : (pyStrip l).reverse = x :: xs) : pySpace x = false := by
  unfold pyStrip at h
  rw [List.reverse_reverse] at h
  exact dropWhile_head_false _ _ _ _ h

theorem pyStrip_head (l : List Char) (x : Char) (xs : List Char)
    (h : pyStrip l = x :: xs) : pySpace x = false := by
  unfold pyStrip at h
  have hsplit :
      (l.dropWhile pySpace).reverse.takeWhile pySpace ++
        (l.dropWhile pySpace).reverse.dropWhile pySpace =
        (l.dropWhile pySpace).reverse :=
    List.takeWhile_append_dropWhile pySpace ((l.dropWhile pySpace).reverse)
  have hd2 : l.dropWhile pySpace =
      ((l.dropWhile pySpace).reverse.dropWhile pySpace).reverse ++
        ((l.dropWhile pySpace).reverse.takeWhile pySpace).reverse := by
    conv_lhs => rw [← List.reverse_reverse (l.dropWhile pySpace), ← hsplit]
    rw [List.reverse_append]
  rw [h] at hd2
  rw [List.cons_append] at hd2
  exact dropWhile_head_false pySpace l x _ hd2

theorem pyStrip_eq_self_of (m : List Char)
    (hh : ∀ x xs, m = x :: xs → pySpace x = false)
    (hr : ∀ x xs, m.reverse = x :: xs → pySpace x = false) :
    pyStrip m = m := by
  unfold pyStrip
  have h1 : m.dropWhile pySpace = m := by
    cases m with
    | nil => rfl
    | cons c cs => exact (dropWhile_cons_eq_self pySpace c cs).mpr (hh c cs rfl)
  rw [h1]
  have h2 : m.reverse.dropWhile pySpace = m.reverse := by
    cases hm : m.reverse with
    | nil => rfl
    | cons c cs => exact (dropWhile_cons_eq_self pySpace c cs).mpr (hr c cs hm)
  rw [h2, List.reverse_reverse]

theorem pyStrip_fix_head (m : List Char) (h : pyStrip m = m) (x : Char) (xs : List Char)
    (he : m = x :: xs) : pySpace x = false :=
  pyStrip_head m x xs (by rw [h, he])

theorem pyStrip_fix_rear (m : List Char) (h : pyStrip m = m) (x : Char) (xs : List Char)
    (he : m.reverse = x :: xs) : pySpace x = false :=
  pyStrip_rear m x xs (by rw [h, he])

theorem capitalizeFirst_cons (c : Char) (cs : List Char) :
    capitalizeFirst (c :: cs) = c.toUpper :: cs := by
  cases cs <;> rfl

/-!
### Helper lemmas: the cleaner's matchers
-/

theorem ciStrip_length_eq :
    ∀ (ps cs r : List Char), ciStrip ps cs = some r → cs.length = ps.length + r.length
  | [], cs, r, h => by
    simp only [ciStrip] at h
    cases h
    simp
  | _ :: _, [], r, h => by simp [ciStrip] at h
  | p :: ps, c :: cs, r, h => by
    simp only [ciStrip] at h
    split at h
    · have := ciStrip_length_eq ps cs r h
      simp only [List.length_cons]
      omega
    · simp at h

theorem ciStrip_append :
    ∀ (ps cs r : List Char), ciStrip ps cs = some r → ∃ pre, cs = pre ++ r
  | [], cs, r, h => by
    simp only [ciStrip] at h
    cases h
    exact ⟨[], rfl⟩
  | _ :: _, [], r, h => by simp [ciStrip] at h
  | p :: ps, c :: cs, r, h => by
    simp only [ciStrip] at h
    split at h
    · obtain ⟨pre, hp⟩ := ciStrip_append ps cs r h
      exact ⟨c :: pre, by simp [hp]⟩
    · simp at h

theorem wsPlus_length_lt (cs r : List Char) (h : wsPlus cs = some r) :
    r.length < cs.length := by
  cases cs with
  | nil => simp [wsPlus] at h
  | cons c cs' =>
    simp only [wsPlus] at h
    split at h
    · cases h
      have := (List.dropWhile_sublist (l := cs') pySpace).length_le
      simp only [List.length_cons]
      omega
    · simp at h

theorem wsPlus_append (cs r : List Char) (h : wsPlus cs = some r) :
    ∃ pre, cs = pre ++ r := by
  cases cs with
  | nil => simp [wsPlus] at h
  | cons c cs' =>
    simp only [wsPlus] at h
    split at h
    · cases h
      exact ⟨c :: cs'.takeWhile pySpace,
        by simp [List.takeWhile_append_dropWhile pySpace cs']⟩
    · simp at h

theorem matchPrefix1_length (o cs r : List Char) (h : matchPrefix1 o cs = some r) :
    r.length < cs.length := by
  simp only [matchPrefix1, Option.bind_eq_some] at h
  obtain ⟨r1, h1, r2, h2, r3, h3, h4⟩ := h
  have l1 := ciStrip_length_eq o cs r1 h1
  have l2 := wsPlus_length_lt r1 r2 h2
  have l3 := ciStrip_length_eq ['t', 'o'] r2 r3 h3
  have l4 := wsPlus_length_lt r3 r h4
  simp only [List.length_cons, List.length_nil] at l3
  omega

theorem matchPrefix2_length (o cs r : List Char) (h : matchPrefix2 o cs = some r) :
    r.length < cs.length := by
  simp only [matchPrefix2, Option.bind_eq_some, Option.map_eq_some'] at h
  obtain ⟨r1, h1, r2, h2, hr⟩ := h
  have l1 := ciStrip_length_eq o cs r1 h1
  have l2 := ciStrip_length_eq [':'] r1 r2 h2
  have l3 := (List.dropWhile_sublist (l := r2) pySpace).length_le
  rw [hr] at l3
  simp only [List.length_cons, List.length_nil] at l2
  omega

theorem matchPrefix3_length (o cs r : List Char) (h : matchPrefix3 o cs = some r) :
    r.length < cs.length := by
  simp only [matchPrefix3, Option.bind_eq_some] at h
  obtain ⟨r1, h1, h2⟩ := h
  have l1 := ciStrip_length_eq o cs r1 h1
  have l2 := wsPlus_length_lt r1 r h2
  omega

theorem matchPrefix1_append (o cs r : List Char) (h : matchPrefix1 o cs = some r) :
    ∃ pre, cs = pre ++ r := by
  simp only [matchPrefix1, Option.bind_eq_some] at h
  obtain ⟨r1, h1, r2, h2, r3, h3, h4⟩ := h
  obtain ⟨p1, e1⟩ := ciStrip_append o cs r1 h1
  obtain ⟨p2, e2⟩ := wsPlus_append r1 r2 h2
  obtain ⟨p3, e3⟩ := ciStrip_append ['t', 'o'] r2 r3 h3
  obtain ⟨p4, e4⟩ := wsPlus_append r3 r h4
  exact ⟨p1 ++ (p2 ++ (p3 ++ p4)), by simp [e1, e2, e3, e4]⟩

theorem matchPrefix2_append (o cs r : List Char) (h : matchPrefix2 o cs = some r) :
    ∃ pre, cs = pre ++ r := by
  simp only [matchPrefix2, Option.bind_eq_some, Option.map_eq_some'] at h
  obtain ⟨r1, h1, r2, h2, hr⟩ := h
  obtain ⟨p1, e1⟩ := ciStrip_append o cs r1 h1
  obtain ⟨p2, e2⟩ := ciStrip_append [':'] r1 r2 h2
  refine ⟨p1 ++ (p2 ++ r2.takeWhile pySpace), ?_⟩
  rw [e1, e2, ← hr]
  simp [List.takeWhile_append_dropWhile pySpace r2]

theorem matchPrefix3_append (o cs r : List Char) (h : matchPrefix3 o cs = some r) :
    ∃ pre, cs = pre ++ r := by
  simp only [matchPrefix3, Option.bind_eq_some] at h
  obtain ⟨r1, h1, h2⟩ := h
  obtain ⟨p1, e1⟩ := ciStrip_append o cs r1 h1
  obtain ⟨p2, e2⟩ := wsPlus_append r1 r h2
  exact ⟨p1 ++ p2, by simp [e1, e2]⟩

theorem applySub_append (m : List Char → Option (List Char)) (cs : List Char)
    (hm : ∀ r, m cs = some r → ∃ pre, cs = pre ++ r) :
    ∃ pre, cs = pre ++ applySub m cs := by
  unfold applySub
  cases hc : m cs with
  | none => exact ⟨[], rfl⟩
  | some r => exact hm r hc

theorem matchPrefix1_toUpper (o : List Char) (c : Char) (rest : List Char) :
    matchPrefix1 o (c.toUpper :: rest) = matchPrefix1 o (c :: rest) := by
  cases o with
  | nil =>
    simp only [matchPrefix1, ciStrip, Option.some_bind, wsPlus, pySpace_toUpper]
  | cons p ps =>
    simp only [matchPrefix1, ciStrip, char_toLower_toUpper]

theorem matchPrefix2_toUpper (o : List Char) (c : Char) (rest : List Char) :
    matchPrefix2 o (c.toUpper :: rest) = matchPrefix2 o (c :: rest) := by
  cases o with
  | nil =>
    simp only [matchPrefix2, ciStrip, Option.some_bind, char_toLower_toUpper]
  | cons p ps =>
    simp only [matchPrefix2, ciStrip, char_toLower_toUpper]

theorem matchPrefix3_toUpper (o : List Char) (c : Char) (rest : List Char) :
    matchPrefix3 o (c.toUpper :: rest) = matchPrefix3 o (c :: rest) := by
  cases o with
  | nil =>
    simp only [matchPrefix3, ciStrip, Option.some_bind, wsPlus, pySpace_toUpper]
  | cons p ps =>
    simp only [matchPrefix3, ciStrip, char_toLower_toUpper]

theorem matchPrefix1_nil (o : List Char) : matchPrefix1 o [] = none := by
  cases o with
  | nil => simp [matchPrefix1, ciStrip, wsPlus]
  | cons p ps => simp [matchPrefix1, ciStrip]

theorem matchPrefix2_nil (o : List Char) : matchPrefix2 o [] = none := by
  cases o with
  | nil => simp [matchPrefix2, ciStrip]
  | cons p ps => simp [matchPrefix2, ciStrip]

theorem matchPrefix3_nil (o : List Char) : matchPrefix3 o [] = none := by
  cases o with
  | nil => simp [matchPrefix3, ciStrip, wsPlus]
  | cons p ps => simp [matchPrefix3, ciStrip]

/-- Folding the truthiness-first search into one `pyOr` step. -/
theorem find?_truthy_cons (v : PyVal) (vs : List PyVal) (d : PyVal) :
    (match (v :: vs).find? pyTruthy with | some x => x | Option.none => d) =
    pyOr v (match vs.find? pyTruthy with | some x => x | Option.none => d) := by
  by_cases h : pyTruthy v
  · simp [List.find?_cons_of_pos _ h, pyOr, h]
  · simp [List.find?_cons_of_neg _ h, pyOr, h]

theorem string_mk_data (l : List Char) : (String.mk l).data = l := rfl

/-- Unfolding `clean_task_text`'s pattern loop into the three explicit
substitution stages. -/
theorem clean_task_text_unfold (t o : String) :
    clean_task_text t o =
      (if pyStrip (applySub (matchPrefix3 o.data) (applySub (matchPrefix2 o.data)
            (applySub (matchPrefix1 o.data) t.data))) = []
       then String.mk (pyStrip (applySub (matchPrefix3 o.data)
            (applySub (matchPrefix2 o.data) (applySub (matchPrefix1 o.data) t.data))))
       else String.mk (capitalizeFirst (pyStrip (applySub (matchPrefix3 o.data)
            (applySub (matchPrefix2 o.data) (applySub (matchPrefix1 o.data) t.data)))))) :=
  rfl

theorem applySub_le (m : List Char → Option (List Char))
    (hm : ∀ cs r, m cs = some r → r.length < cs.length) (cs : List Char) :
    (applySub m cs).length ≤ cs.length := by
  rcases h : m cs with _ | r
  · simp [applySub, h]
  · simp only [applySub, h]
    exact Nat.le_of_lt (hm cs r h)

/-- The final strip-and-capitalize step keeps the string stripped and makes
the head character a fixed point of `toUpper`. -/
theorem stripCapitalize_invariant (u : List Char) :
    pyStrip (if pyStrip u = [] then String.mk (pyStrip u)
             else String.mk (capitalizeFirst (pyStrip u))).data =
      (if pyStrip u = [] then String.mk (pyStrip u)
       else String.mk (capitalizeFirst (pyStrip u))).data ∧
    (∀ x xs, (if pyStrip u = [] then String.mk (pyStrip u)
              else String.mk (capitalizeFirst (pyStrip u))).data = x :: xs →
      x.toUpper = x) := by
  cases hs : pyStrip u with
  | nil =>
    rw [if_pos rfl]
    constructor
    · rfl
    · intro x xs hx
      simp [string_mk_data] at hx
  | cons c cs =>
    rw [if_neg (by simp), capitalizeFirst_cons, string_mk_data]
    have hc : pySpace c = false := pyStrip_head u c cs hs
    constructor
    · apply pyStrip_eq_self_of
      · intro x xs hx
        cases hx
        rw [pySpace_toUpper]
        exact hc
      · intro x xs hx
        rw [List.reverse_cons] at hx
        cases hcs : cs.reverse with
        | nil =>
          rw [hcs, List.nil_append] at hx
          cases hx
          rw [pySpace_toUpper]
          exact hc
        | cons y ys =>
          rw [hcs, List.cons_append] at hx
          cases hx
          exact pyStrip_rear u x (ys ++ [c])
            (by rw [hs, List.reverse_cons, hcs, List.cons_append])

    · intro x xs hx
      cases hx
      exact char_toUpper_toUpper c

/-!
### Whitespace-only input never matches either grammar
-/

theorem mdMatchAt_not_dash (c : Char) (cs : List Char) (h : c ≠ '-') :
    mdMatchAt (c :: cs) = none := by
  simp only [mdMatchAt, litChar, if_neg h, Option.none_bind]

theorem labelMatchAt_not_t (c : Char) (cs : List Char) (h : c.toLower ≠ 't') :
    labelMatchAt (c :: cs) = none := by
  have hb : (('t' : Char).toLower == c.toLower) = false := by
    rw [show ('t' : Char).toLower = 't' from rfl]
    exact beq_eq_false_iff_ne.mpr (fun he => h he.symm)
  simp only [labelMatchAt, ciStrip, hb, Bool.false_eq_true, if_false, Option.none_bind]

theorem mdScan_all_space (fuel : Nat) :
    ∀ cs : List Char, (∀ c ∈ cs, pySpace c = true) → mdScan fuel cs = [] := by
  induction fuel with
  | zero => intro cs h; rfl
  | succ n ih =>
    intro cs h
    cases cs with
    | nil => rfl
    | cons c cs' =>
      have hc : pySpace c = true := h c (List.mem_cons_self c cs')
      have hne : c ≠ '-' := by
        intro he
        subst he
        exact absurd hc (by decide)
      simp only [mdScan, mdMatchAt_not_dash c cs' hne]
      exact ih cs' (fun x hx => h x (List.mem_cons_of_mem c hx))

theorem labelScan_all_space (fuel : Nat) :
    ∀ cs : List Char, (∀ c ∈ cs, pySpace c = true) → labelScan fuel cs = [] := by
  induction fuel with
  | zero => intro cs h; rfl
  | succ n ih =>
    intro cs h
    cases cs with
    | nil => rfl
    | cons c cs' =>
      have hc : pySpace c = true := h c (List.mem_cons_self c cs')
      have hlt : c.toLower ≠ 't' := by
        rw [toLower_eq_self_of_pySpace c hc]
        intro he
        subst he
        exact absurd hc (by decide)
      simp only [labelScan, labelMatchAt_not_t c cs' hlt]
      exact ih cs' (fun x hx => h x (List.mem_cons_of_mem c hx))

/-!
### The claims
-/

/-- C1: for every text input, the parser tries the checklist grammar first
and the label grammar second, stopping at the first that yields at least one
match: when the checklist grammar produces one or more entries they are the
entire output, and the label grammar's entries are the output exactly when
the checklist grammar yields zero matches. -/
theorem c1_grammar_priority (s : String) :
    (mdEntries s.data ≠ [] → parseTasksFromText s = mdEntries s.data) ∧
    (mdEntries s.data = [] → parseTasksFromText s = labelEntries s.data) := by
  constructor
  · intro h
    simp only [parseTasksFromText]
    rw [if_neg (by simp [List.isEmpty_iff, h])]
  · intro h
    simp only [parseTasksFromText]
    rw [if_pos (by simp [List.isEmpty_iff, h])]

theorem c1_grammar_priority_witness :
    parseTasksFromText "- [ ] bob to write it" = mdEntries ("- [ ] bob to write it").data ∧
    parseTasksFromText "Task: write it Owner: bob" =
      labelEntries ("Task: write it Owner: bob").data :=
  ⟨(c1_grammar_priority "- [ ] bob to write it").1 (by decide),
   (c1_grammar_priority "Task: write it Owner: bob").2 (by decide)⟩

/-- C2 counterexample: the claim says success=false on every non-2xx
response, but `raise_for_status()` raises only for statuses in `[400, 600)`;
a final 304 response (non-2xx) yields success=true with the response body. -/
theorem c2_forwarder_counterexample :
    post_to_zapier (some "https://hooks.zapier.example/abc")
        (fun _ => .response 304 "Not Modified") = (true, "Not Modified") ∧
    is2xx 304 = false :=
  ⟨rfl, rfl⟩

/-- C2 (amended): the forwarder returns exactly one of three outcomes —
(false, configuration-error message) when the destination URL is unset or
empty, independently of the network oracle (no network call is made);
(false, error description) when the post raises or the response status is in
`[400, 600)` (the statuses for which `raise_for_status()` raises); and
(true, response body) for a received response with any other status — so 1xx
and 3xx final responses also report success. -/
theorem c2_forwarder_outcomes (url : String) (net net2 : String → HttpResult)
    (msg body : String) (st : Nat) :
    (post_to_zapier Option.none net = (false, configErrorMsg)) ∧
    (post_to_zapier (some "") net = (false, configErrorMsg)) ∧
    (post_to_zapier Option.none net = post_to_zapier Option.none net2) ∧
    (post_to_zapier (some "") net = post_to_zapier (some "") net2) ∧
    (url ≠ "" → net url = .exn msg → post_to_zapier (some url) net = (false, msg)) ∧
    (url ≠ "" → net url = .response st body → 400 ≤ st → st < 600 →
      post_to_zapier (some url) net = (false, httpErrorDetail st url)) ∧
    (url ≠ "" → net url = .response st body → ¬(400 ≤ st ∧ st < 600) →
      post_to_zapier (some url) net = (true, body)) := by
  refine ⟨rfl, rfl, rfl, rfl, ?_, ?_, ?_⟩
  · intro hu hn
    simp only [post_to_zapier, if_neg hu, hn]
  · intro hu hn h4 h6
    simp only [post_to_zapier, if_neg hu, hn]
    rw [if_pos (by simp [raiseForStatusRaises]; omega)]
  · intro hu hn hns
    simp only [post_to_zapier, if_neg hu, hn]
    rw [if_neg (by simp [raiseForStatusRaises]; omega)]

theorem c2_forwarder_outcomes_witness :
    post_to_zapier (some "https://z") (fun _ => .exn "boom") = (false, "boom") ∧
    post_to_zapier (some "https://z") (fun _ => .response 500 "err") =
      (false, httpErrorDetail 500 "https://z") ∧
    post_to_zapier (some "https://z") (fun _ => .response 200 "ok") = (true, "ok") :=
  ⟨(c2_forwarder_outcomes "https://z" (fun _ => .exn "boom") (fun _ => .exn "boom")
      "boom" "" 0).2.2.2.2.1 (by decide) rfl,
   (c2_forwarder_outcomes "https://z" (fun _ => .response 500 "err")
      (fun _ => .response 500 "err") "" "err" 500).2.2.2.2.2.1 (by decide) rfl
      (by omega) (by omega),
   (c2_forwarder_outcomes "https://z" (fun _ => .response 200 "ok")
      (fun _ => .response 200 "ok") "" "ok" 200).2.2.2.2.2.2 (by decide) rfl
      (by omega)⟩

/-- C3 counterexample: with owner "Bob" and text "Bob to Bob: wash dishes",
the first form strips "Bob to " and then the second form strips the newly
exposed "Bob: " as well, so the code yields "Wash dishes" while the claimed
only-the-first-form behaviour yields "Bob: wash dishes". -/
theorem c3_cleaner_counterexample :
    clean_task_text "Bob to Bob: wash dishes" "Bob" = "Wash dishes" ∧
    clean_task_text_spec_first_only "Bob to Bob: wash dishes" "Bob" = "Bob: wash dishes" ∧
    clean_task_text "Bob to Bob: wash dishes" "Bob" ≠
      clean_task_text_spec_first_only "Bob to Bob: wash dishes" "Bob" :=
  ⟨by decide, by decide, by decide⟩

/-- C3 (amended): the cleaner tries the three forms `"<owner> to "`,
`"<owner>: "`, `"<owner> "` in that order, case-insensitively, each removing
at most one leading occurrence — but each form is applied to the result of
the previous one, so a later form strips again when the remainder again
begins with the owner; each stage's output is a suffix of its input. -/
theorem c3_cleaner_sequential (t o : String) :
    (clean_task_text t o =
      (if pyStrip (applySub (matchPrefix3 o.data) (applySub (matchPrefix2 o.data)
            (applySub (matchPrefix1 o.data) t.data))) = []
       then String.mk (pyStrip (applySub (matchPrefix3 o.data)
            (applySub (matchPrefix2 o.data) (applySub (matchPrefix1 o.data) t.data))))
       else String.mk (capitalizeFirst (pyStrip (applySub (matchPrefix3 o.data)
            (applySub (matchPrefix2 o.data) (applySub (matchPrefix1 o.data) t.data))))))) ∧
    (∃ p1, t.data = p1 ++ applySub (matchPrefix1 o.data) t.data) ∧
    (∃ p2, applySub (matchPrefix1 o.data) t.data =
      p2 ++ applySub (matchPrefix2 o.data) (applySub (matchPrefix1 o.data) t.data)) ∧
    (∃ p3, applySub (matchPrefix2 o.data) (applySub (matchPrefix1 o.data) t.data) =
      p3 ++ applySub (matchPrefix3 o.data)
        (applySub (matchPrefix2 o.data) (applySub (matchPrefix1 o.data) t.data))) := by
  refine ⟨rfl, ?_, ?_, ?_⟩
  · exact applySub_append _ _ (matchPrefix1_append o.data t.data)
  · exact applySub_append _ _ (matchPrefix2_append o.data _)
  · exact applySub_append _ _ (matchPrefix3_append o.data _)

/-- C4 counterexample: presence is not what the `or` chain tests; with
`krisp_blob` present but empty (falsy) and `text` present and nonempty, the
code uses `text` while the claimed first-present-key behaviour would use the
empty `krisp_blob` value. -/
theorem c4_extractor_counterexample :
    extract_text_content (.dict [("krisp_blob", .str ""), ("text", .str "hello")]) =
      .str "hello" ∧
    extract_from_dict_spec [("krisp_blob", .str ""), ("text", .str "hello")] = .str "" ∧
    ("hello" : String) ≠ "" :=
  ⟨rfl, rfl, by decide⟩

/-- C4 (amended): on a dict payload the extractor probes the ordered
candidate keys and uses the value of the first key whose value is truthy
(present and nonempty/nonzero); when no candidate value is truthy — absent
keys and present-but-falsy values alike — it falls back to the full string
representation of the dict. -/
theorem c4_extractor_first_truthy (es : List (String × PyVal)) :
    extract_text_content (.dict es) = extractFromDict es ∧
    extractFromDict es =
      (match (candidateKeys.map (pyGet es)).find? pyTruthy with
       | some v => v
       | Option.none => .str (pyStr (.dict es))) := by
  constructor
  · rfl
  · simp only [candidateKeys, List.map_cons, List.map_nil, find?_truthy_cons,
      List.find?_nil]
    rfl

/-- C5 counterexample: extraction is not idempotent on extracted strings —
the string `{"text": "hello"}` is itself an extraction result (from a dict
whose `text` field holds it), yet extracting from it parses it as JSON and
yields "hello". -/
theorem c5_extraction_counterexample :
    extract_text_content (.dict [("text", .str "\x7b\"text\": \"hello\"\x7d")]) =
      .str "\x7b\"text\": \"hello\"\x7d" ∧
    extract_text_content (.str "\x7b\"text\": \"hello\"\x7d") = .str "hello" ∧
    ("hello" : String) ≠ "\x7b\"text\": \"hello\"\x7d" :=
  ⟨rfl, rfl, by decide⟩

/-- C5 (amended): re-extraction from an extracted string yields the same
string back provided the string does not parse as JSON; a JSON-parseable
string is re-parsed and re-dispatched instead. -/
theorem c5_extraction_nonjson_fixed (s : String) (h : jsonParse s = Option.none) :
    extract_text_content (.str s) = .str s := by
  simp only [extract_text_content, h]

theorem c5_extraction_nonjson_fixed_witness :
    extract_text_content (.str "hello world") = .str "hello world" :=
  c5_extraction_nonjson_fixed "hello world" (by rfl)

/-- C8 counterexample: the literal input "bob TO send invoice" carries no
checklist marker and no "Task:" label, so the parser yields no entry at all
(in particular none with owner "bob"). -/
theorem c8_owner_case_counterexample :
    parseTasksFromText "bob TO send invoice" = [] := by
  decide

/-- C8 (amended): owner extraction is case-insensitive within the checklist
grammar — with the checklist marker present, "- [ ] bob TO send invoice"
matches and yields owner "bob" (and the owner's own letter case is
preserved). -/
theorem c8_owner_case_amended :
    parseTasksFromText "- [ ] bob TO send invoice" = [⟨"send invoice", "bob"⟩] ∧
    parseTasksFromText "- [ ] Bob tO send invoice" = [⟨"send invoice", "Bob"⟩] :=
  ⟨by decide, by decide⟩

/-- C9: empty or whitespace-only text yields an empty TaskEntry sequence
(the parser is a total function, so it never faults); the empty sequence is
an ordinary return value. -/
theorem c9_whitespace_empty (s : String) (h : ∀ c ∈ s.data, pySpace c = true) :
    parseTasksFromText s = [] := by
  have hmd : mdEntries s.data = [] := by
    unfold mdEntries
    rw [mdScan_all_space _ _ h]
    rfl
  have hlb : labelEntries s.data = [] := by
    unfold labelEntries
    rw [labelScan_all_space _ _ h]
    rfl
  simp only [parseTasksFromText]
  rw [if_pos (by simp [List.isEmpty_iff, hmd])]
  exact hlb

theorem c9_whitespace_empty_witness :
    parseTasksFromText "" = [] ∧ parseTasksFromText "  \n\t " = [] :=
  ⟨c9_whitespace_empty "" (by decide), c9_whitespace_empty "  \n\t " (by decide)⟩

/-- C10: for every task text and owner, the cleaner's output has no leading
or trailing whitespace (it is a fixed point of stripping), and its first
character, when the output is nonempty, is a fixed point of upper-casing;
the cleaner is a total function on all string inputs, including the empty
string. -/
theorem c10_cleaner_output_invariant (t o : String) :
    pyStrip (clean_task_text t o).data = (clean_task_text t o).data ∧
    (∀ x xs, (clean_task_text t o).data = x :: xs → x.toUpper = x) :=
  stripCapitalize_invariant
    ([matchPrefix1 o.data, matchPrefix2 o.data, matchPrefix3 o.data].foldl
      (fun acc m => applySub m acc) t.data)

/-- Every captured checklist description is newline-free, except the
degenerate backtracking case, where it is one whitespace character. -/
theorem mdMatchAt_desc (cs ow desc rest : List Char)
    (h : mdMatchAt cs = some ((ow, desc), rest)) :
    (∀ c ∈ desc, ¬(c = '\n')) ∨ (∃ w, desc = [w] ∧ pySpace w = true) := by
  simp only [mdMatchAt, Option.bind_eq_some, Option.map_eq_some'] at h
  obtain ⟨a, _, b, _, d, _, e, _, owp, _, g, _, hh, _, dr, hstep, heq⟩ := h
  have hdesc : dr.1 = desc := by
    rw [Prod.ext_iff, Prod.ext_iff] at heq
    exact heq.1.2
  subst hdesc
  simp only [lazyDescStep] at hstep
  split at hstep
  · simp at hstep
  · split at hstep
    · split at hstep
      · cases hstep
        right
        refine ⟨(hh.takeWhile pySpace).getLastD ' ', rfl, ?_⟩
        rcases List.mem_cons.mp (List.getLastD_mem_cons (hh.takeWhile pySpace) ' ') with hm | hm
        · rw [hm]
          rfl
        · exact List.mem_takeWhile_imp hm
      · simp at hstep
    · cases hstep
      left
      intro c hm
      have := List.mem_takeWhile_imp hm
      simpa using this

theorem mdScan_desc (fuel : Nat) :
    ∀ cs p, p ∈ mdScan fuel cs →
      (∀ c ∈ p.2, ¬(c = '\n')) ∨ (∃ w, p.2 = [w] ∧ pySpace w = true) := by
  induction fuel with
  | zero =>
    intro cs p h
    simp [mdScan] at h
  | succ n ih =>
    intro cs p h
    cases cs with
    | nil => simp [mdScan] at h
    | cons c cs' =>
      rcases hm : mdMatchAt (c :: cs') with _ | ⟨⟨ow, desc⟩, rest⟩
      · simp only [mdScan, hm] at h
        exact ih cs' p h
      · simp only [mdScan, hm] at h
        rcases List.mem_cons.mp h with he | hmem
        · subst he
          exact mdMatchAt_desc (c :: cs') ow desc rest hm
        · exact ih rest p hmem

theorem pyStrip_subset (l : List Char) (x : Char) (h : x ∈ pyStrip l) : x ∈ l := by
  unfold pyStrip at h
  rw [List.mem_reverse] at h
  have h2 := (List.dropWhile_sublist (l := (l.dropWhile pySpace).reverse) pySpace).subset h
  rw [List.mem_reverse] at h2
  exact (List.dropWhile_sublist (l := l) pySpace).subset h2

theorem clean_task_text_empty (o : String) :
    clean_task_text (String.mk []) o = String.mk [] := by
  rw [clean_task_text_unfold]
  have e1 : applySub (matchPrefix1 o.data) (String.mk []).data = [] := by
    simp [string_mk_data, applySub, matchPrefix1_nil]
  rw [e1]
  have e2 : applySub (matchPrefix2 o.data) [] = [] := by
    simp [applySub, matchPrefix2_nil]
  rw [e2]
  have e3 : applySub (matchPrefix3 o.data) [] = [] := by
    simp [applySub, matchPrefix3_nil]
  rw [e3]
  rw [show pyStrip ([] : List Char) = [] from rfl, if_pos rfl]

/-- C6 counterexample: the text " bob to x" is untouched by the three
anchored substitutions (they cannot match past the leading space), so the
owner prefix counts as already removed, yet cleaning strips the whitespace
and exposes the prefix: the first clean yields "Bob to x" and a second clean
yields "X". -/
theorem c6_cleaner_counterexample :
    ownerPrefixRemoved " bob to x" "bob" ∧
    clean_task_text " bob to x" "bob" = "Bob to x" ∧
    clean_task_text (clean_task_text " bob to x" "bob") "bob" = "X" ∧
    clean_task_text (clean_task_text " bob to x" "bob") "bob" ≠
      clean_task_text " bob to x" "bob" :=
  ⟨by decide, by decide, by decide, by decide⟩

/-- C6 (amended): the cleaner is idempotent on text from which the owner
prefix has already been removed, provided the text is additionally
whitespace-trimmed (as already-cleaned text is): when the substitution pass
leaves `t` unchanged and `t` is a fixed point of stripping,
`clean(clean(t, o), o) = clean(t, o)`. -/
theorem c6_cleaner_idempotent (t o : String) (h1 : ownerPrefixRemoved t o)
    (h2 : pyStrip t.data = t.data) :
    clean_task_text (clean_task_text t o) o = clean_task_text t o := by
  have h1' : applySub (matchPrefix3 o.data) (applySub (matchPrefix2 o.data)
      (applySub (matchPrefix1 o.data) t.data)) = t.data := h1
  have hm1 : matchPrefix1 o.data t.data = none := by
    rcases hc : matchPrefix1 o.data t.data with _ | r
    · rfl
    · exfalso
      have e1 : applySub (matchPrefix1 o.data) t.data = r := by simp [applySub, hc]
      have l1 : r.length < t.data.length := matchPrefix1_length o.data t.data r hc
      have l3 : (applySub (matchPrefix3 o.data)
          (applySub (matchPrefix2 o.data) r)).length ≤
          (applySub (matchPrefix2 o.data) r).length :=
        applySub_le _ (matchPrefix3_length o.data) _
      have l2 : (applySub (matchPrefix2 o.data) r).length ≤ r.length :=
        applySub_le _ (matchPrefix2_length o.data) r
      rw [e1] at h1'
      rw [h1'] at l3
      omega
  have e1 : applySub (matchPrefix1 o.data) t.data = t.data := by simp [applySub, hm1]
  rw [e1] at h1'
  have hm2 : matchPrefix2 o.data t.data = none := by
    rcases hc : matchPrefix2 o.data t.data with _ | r
    · rfl
    · exfalso
      have e2 : applySub (matchPrefix2 o.data) t.data = r := by simp [applySub, hc]
      have l1 : r.length < t.data.length := matchPrefix2_length o.data t.data r hc
      have l3 : (applySub (matchPrefix3 o.data) r).length ≤ r.length :=
        applySub_le _ (matchPrefix3_length o.data) r
      rw [e2] at h1'
      rw [h1'] at l3
      omega
  have e2 : applySub (matchPrefix2 o.data) t.data = t.data := by simp [applySub, hm2]
  rw [e2] at h1'
  have hm3 : matchPrefix3 o.data t.data = none := by
    rcases hc : matchPrefix3 o.data t.data with _ | r
    · rfl
    · exfalso
      have e3 : applySub (matchPrefix3 o.data) t.data = r := by simp [applySub, hc]
      have l1 : r.length < t.data.length := matchPrefix3_length o.data t.data r hc
      rw [e3] at h1'
      rw [h1'] at l1
      omega
  have e3 : applySub (matchPrefix3 o.data) t.data = t.data := by simp [applySub, hm3]
  have hct : clean_task_text t o =
      (if t.data = [] then String.mk t.data
       else String.mk (capitalizeFirst t.data)) := by
    rw [clean_task_text_unfold, e1, e2, e3, h2]
  rw [hct]
  cases htd : t.data with
  | nil =>
    rw [if_pos rfl]
    exact clean_task_text_empty o
  | cons c cs =>
    rw [if_neg (by simp), capitalizeFirst_cons]
    have hc : pySpace c = false := pyStrip_fix_head t.data h2 c cs htd
    have hm1' : matchPrefix1 o.data (c.toUpper :: cs) = none := by
      rw [matchPrefix1_toUpper, ← htd]
      exact hm1
    have hm2' : matchPrefix2 o.data (c.toUpper :: cs) = none := by
      rw [matchPrefix2_toUpper, ← htd]
      exact hm2
    have hm3' : matchPrefix3 o.data (c.toUpper :: cs) = none := by
      rw [matchPrefix3_toUpper, ← htd]
      exact hm3
    rw [clean_task_text_unfold]
    have f1 : applySub (matchPrefix1 o.data) (String.mk (c.toUpper :: cs)).data =
        c.toUpper :: cs := by
      simp [string_mk_data, applySub, hm1']
    rw [f1]
    have f2 : applySub (matchPrefix2 o.data) (c.toUpper :: cs) = c.toUpper :: cs := by
      simp [applySub, hm2']
    rw [f2]
    have f3 : applySub (matchPrefix3 o.data) (c.toUpper :: cs) = c.toUpper :: cs := by
      simp [applySub, hm3']
    rw [f3]
    have hstrip : pyStrip (c.toUpper :: cs) = c.toUpper :: cs := by
      apply pyStrip_eq_self_of
      · intro x xs hx
        cases hx
        rw [pySpace_toUpper]
        exact hc
      · intro x xs hx
        rw [List.reverse_cons] at hx
        cases hcs : cs.reverse with
        | nil =>
          rw [hcs, List.nil_append] at hx
          cases hx
          rw [pySpace_toUpper]
          exact hc
        | cons y ys =>
          rw [hcs, List.cons_append] at hx
          cases hx
          exact pyStrip_fix_rear t.data h2 x (ys ++ [c])
            (by rw [htd, List.reverse_cons, hcs, List.cons_append])
    rw [hstrip]
    rw [if_neg (by simp), capitalizeFirst_cons, char_toUpper_toUpper]

theorem c6_cleaner_idempotent_witness :
    clean_task_text (clean_task_text "Fix the bug" "bob") "bob" =
      clean_task_text "Fix the bug" "bob" :=
  c6_cleaner_idempotent "Fix the bug" "bob" (by decide) (by decide)

/-- C7 counterexample: a description does not run to the next checklist
marker or the end of the text — under `re.MULTILINE` the `$` in the
lookahead matches before every newline, so the capture stops at the end of
its line: the code keeps only "send" while the claim's reading keeps
"send the invoice". -/
theorem c7_description_counterexample :
    parseTasksFromText "- [ ] bob to send\nthe invoice" = [⟨"send", "bob"⟩] ∧
    mdEntriesSpec ("- [ ] bob to send\nthe invoice").data =
      [⟨"send the invoice", "bob"⟩] ∧
    (TaskEntry.mk "send" "bob") ≠ (TaskEntry.mk "send the invoice" "bob") :=
  ⟨by decide, by decide, by decide⟩

/-- C7 (amended): matching is case-insensitive, but each captured description
ends at the first end of line (or end of text): a capture never contains a
newline except in the degenerate case where it is a single whitespace
character, and after the strip/replace steps every emitted task text is
newline-free. -/
theorem c7_description_stops_at_eol (cs : List Char) :
    (∀ p ∈ mdScan (cs.length + 1) cs,
      (∀ c ∈ p.2, ¬(c = '\n')) ∨ (∃ w, p.2 = [w] ∧ pySpace w = true)) ∧
    (∀ e ∈ mdEntries cs, ∀ c ∈ e.task.data, ¬(c = '\n')) := by
  constructor
  · intro p h
    exact mdScan_desc (cs.length + 1) cs p h
  · intro e he c hc
    unfold mdEntries at he
    rw [List.mem_map] at he
    obtain ⟨p, _, hpe⟩ := he
    rw [← hpe] at hc
    simp only [string_mk_data] at hc
    have hc2 := pyStrip_subset _ _ hc
    rw [List.mem_map] at hc2
    obtain ⟨b, _, hbc⟩ := hc2
    by_cases hb : b = '\n'
    · rw [if_pos hb] at hbc
      rw [← hbc]
      decide
    · rw [if_neg hb] at hbc
      rw [← hbc]
      exact hb

theorem c7_description_stops_at_eol_witness :
    ((∀ c ∈ ("x" : String).data, ¬(c = '\n')) ∨
      (∃ w, ("x" : String).data = [w] ∧ pySpace w = true)) ∧
    ¬(('x' : Char) = '\n') :=
  ⟨(c7_description_stops_at_eol ("- [ ] bob to x").data).1
      ("bob".data, "x".data) (by decide),
   (c7_description_stops_at_eol ("- [ ] bob to x").data).2
      ⟨"x", "bob"⟩ (by decide) 'x' (by decide)⟩

theorem c10_cleaner_output_invariant_witness :
    pyStrip (clean_task_text "bob to fix the bug " "bob").data =
      (clean_task_text "bob to fix the bug " "bob").data ∧
    ('F' : Char).toUpper = 'F' :=
  ⟨(c10_cleaner_output_invariant "bob to fix the bug " "bob").1,
   (c10_cleaner_output_invariant "bob to fix the bug " "bob").2 'F' "ix the bug".data
     (by decide)⟩

end KrispNotion
